import Mathlib

set_option maxRecDepth 1000000

/-!
Shallow embedding of `src/fix_setup_assume_isolated.py`.

The script runs two `re.sub` passes (DOTALL) over file content:

  setup_pattern    = @MainActor\s+override func setUp\(\) async throws \x7b\s*try await super\.setUp\(\)(.*?)\x7d
  teardown_pattern = @MainActor\s+override func tearDown\(\) async throws \x7b(.*?)try await super\.tearDown\(\)\s*\x7d

Both patterns are a chain of literals, whitespace classes, and one lazy
dot-all capture.  Because every `\s+`/`\s*` is immediately followed by a
literal whose first character is not whitespace, greedy backtracking
collapses to "consume the maximal whitespace run, then the literal must
follow"; the lazy `(.*?)` stops at the first position where the rest of
the pattern matches.  `re.sub` scans left to right, replacing
non-overlapping leftmost matches and resuming after each match's end.
These deterministic readings are what the matchers below implement.

Whitespace (`\s` and Python's `str.strip`) is modelled by the ASCII
whitespace set 0x9-0xd, 0x1c-0x1f, 0x20; the embedding covers ASCII
content (non-ASCII whitespace such as U+0085 is out of scope).
-/

namespace VibeMeter

/-- ASCII model of Python's `\s` class and of the default `str.strip` set. -/
def isPySpace (c : Char) : Bool :=
  c = ' ' || c = '\t' || c = '\n' || c = '\x0b' || c = '\x0c' || c = '\r' ||
  c = '\x1c' || c = '\x1d' || c = '\x1e' || c = '\x1f'

/-- Match a literal at the head of the input, returning the remainder. -/
def eatLit : List Char → List Char → Option (List Char)
  | [], s => some s
  | _ :: _, [] => none
  | c :: cs, d :: ds => if c = d then eatLit cs ds else none

/-- Drop the maximal run of whitespace (regex `\s*` in front of a
non-whitespace literal). -/
def dropSpaces : List Char → List Char
  | [] => []
  | c :: rest => if isPySpace c then dropSpaces rest else c :: rest

/-- Regex `\s+` in front of a non-whitespace literal: at least one
whitespace character, then the maximal run is consumed. -/
def eatSpaces1 : List Char → Option (List Char)
  | [] => none
  | c :: rest => if isPySpace c then some (dropSpaces rest) else none

/-- Lazy `(.*?)\x7d`: capture up to the first closing brace, returning
the capture and the remainder after the brace. -/
def splitAtBrace : List Char → Option (List Char × List Char)
  | [] => none
  | c :: rest =>
    if c = '\x7d' then some ([], rest)
    else (splitAtBrace rest).map (fun p => (c :: p.1, p.2))

def litMainActor : String := "@MainActor"

def litSetupHead : String := "override func setUp() async throws \x7b"

def litSuperSetUp : String := "try await super.setUp()"

def litTearHead : String := "override func tearDown() async throws \x7b"

def litSuperTearDown : String := "try await super.tearDown()"

/-- The tail `try await super\.tearDown\(\)\s*\x7d` tried at one position:
literal, maximal whitespace run, closing brace. -/
def tearTailHere (s : List Char) : Option (List Char) :=
  (eatLit litSuperTearDown.data s).bind fun r =>
    match dropSpaces r with
    | '\x7d' :: rest => some rest
    | _ => none

/-- Lazy `(.*?)` before the teardown tail: the capture grows until the
first position where the tail matches. -/
def findTearTail : List Char → Option (List Char × List Char)
  | [] => none
  | c :: rest =>
    match tearTailHere (c :: rest) with
    | some r => some ([], r)
    | none => (findTearTail rest).map (fun p => (c :: p.1, p.2))

/-- Anchored match of `setup_pattern`; returns (group 1, remainder after
the match) on success. -/
def matchSetup (s : List Char) : Option (List Char × List Char) :=
  (eatLit litMainActor.data s).bind fun s1 =>
  (eatSpaces1 s1).bind fun s2 =>
  (eatLit litSetupHead.data s2).bind fun s3 =>
  (eatLit litSuperSetUp.data (dropSpaces s3)).bind fun s4 =>
  splitAtBrace s4

/-- Anchored match of `teardown_pattern`; returns (group 1, remainder
after the match) on success. -/
def matchTear (s : List Char) : Option (List Char × List Char) :=
  (eatLit litMainActor.data s).bind fun s1 =>
  (eatSpaces1 s1).bind fun s2 =>
  (eatLit litTearHead.data s2).bind fun s3 =>
  findTearTail s3

/-- Python's `str.strip()` over the ASCII whitespace set. -/
def strip (s : List Char) : List Char :=
  ((s.dropWhile isPySpace).reverse.dropWhile isPySpace).reverse

def setupReplHead : String :=
  "override func setUp() \x7b\n        super.setUp()\n        MainActor.assumeIsolated \x7b\n"

def setupReplTail : String := "\n        \x7d\n    \x7d"

def tearReplHead : String :=
  "override func tearDown() \x7b\n        MainActor.assumeIsolated \x7b\n"

def tearReplTail : String := "\n        \x7d\n        super.tearDown()\n    \x7d"

/-- The `fix_setup` replacement closure: strip the captured body and
splice it into the f-string template. -/
def fix_setup (body : List Char) : List Char :=
  setupReplHead.data ++ strip body ++ setupReplTail.data

/-- The `fix_teardown` replacement closure. -/
def fix_teardown (body : List Char) : List Char :=
  tearReplHead.data ++ strip body ++ tearReplTail.data

/-- `re.sub(setup_pattern, fix_setup, ·)`: scan left to right, replace
each leftmost non-overlapping match, resume after the match.  Fuel-based
so it computes by structural recursion; any fuel of at least the input
length gives the stable result (proved below). -/
def subSetupF : Nat → List Char → List Char
  | 0, s => s
  | _ + 1, [] => []
  | n + 1, c :: rest =>
    match matchSetup (c :: rest) with
    | some (body, rem) => fix_setup body ++ subSetupF n rem
    | none => c :: subSetupF n rest

/-- `re.sub(teardown_pattern, fix_teardown, ·)`, same scanning scheme. -/
def subTearF : Nat → List Char → List Char
  | 0, s => s
  | _ + 1, [] => []
  | n + 1, c :: rest =>
    match matchTear (c :: rest) with
    | some (body, rem) => fix_teardown body ++ subTearF n rem
    | none => c :: subTearF n rest

/-- The setup substitution pass with its canonical (sufficient) fuel. -/
def subSetupGo (s : List Char) : List Char := subSetupF s.length s

/-- The teardown substitution pass with its canonical fuel. -/
def subTearGo (s : List Char) : List Char := subTearF s.length s

/-- `fix_setup_teardown`: setup pass first, then teardown pass. -/
def fix_setup_teardown (content : String) : String :=
  String.mk (subTearGo (subSetupGo content.data))

/-- Whether some suffix of `s` starts a setup-pattern match (i.e. the
content contains an occurrence of the setup pattern). -/
def hasSetupMatch : List Char → Bool
  | [] => false
  | c :: rest => (matchSetup (c :: rest)).isSome || hasSetupMatch rest

/-- Whether some suffix of `s` starts a teardown-pattern match. -/
def hasTearMatch : List Char → Bool
  | [] => false
  | c :: rest => (matchTear (c :: rest)).isSome || hasTearMatch rest

/-- The full fixed head of a canonical setup block occurrence:
annotation, whitespace, declaration, whitespace, base super call. -/
def setupBlockHead : String :=
  "@MainActor\n    override func setUp() async throws \x7b\n        try await super.setUp()"

/-- A canonical, fully-matching setup block: annotation, newline-indented
declaration, base super call, then body `b` and the closing brace.  Any
body without a closing brace makes this a complete setup-pattern match. -/
def setupBlock (b : List Char) : List Char :=
  setupBlockHead.data ++ (b ++ ['\x7d'])

/- ---------------------------------------------------------------------
File-system layer: `process_file` and the `__main__` entry point.
Files are modelled as a partial map from paths to contents; `none` from
`process_file` models the uncaught `open` exception aborting the run.  -/

/-- The file system: each path maps to the file's content, if present. -/
def FS : Type := String → Option String

/-- Writing a file in place. -/
def fsWrite (fs : FS) (path content : String) : FS :=
  fun q => if q = path then some content else fs q

/-- `process_file`: read, transform, write back only when changed, and
report one status line.  `none` models the propagated I/O exception for
a missing/unreadable file. -/
def process_file (fs : FS) (path : String) : Option (FS × String) :=
  match fs path with
  | none => none
  | some content =>
    if fix_setup_teardown content ≠ content then
      some (fsWrite fs path (fix_setup_teardown content), "Fixed: " ++ path)
    else
      some (fs, "No changes: " ++ path)

def usageLine : String := "Usage: python fix_setup_assume_isolated.py <file1> [file2] ..."

/-- The sequential loop over the given paths; aborts on the first failing
file (`none`), mirroring the absence of any per-file try/except. -/
def runPaths (fs : FS) : List String → Option (FS × List String)
  | [] => some (fs, [])
  | p :: ps =>
    (process_file fs p).bind fun r =>
    (runPaths r.1 ps).map fun w => (w.1, r.2 :: w.2)

/-- The `__main__` block: `argv` is the full `sys.argv` (program name
first).  Fewer than two entries means zero file arguments: print usage,
exit 1, touch nothing.  Otherwise process the paths in order; an aborted
run exits nonzero.  Result: (exit code, printed lines, final file
system). -/
def mainModel (argv : List String) (fs : FS) : Nat × List String × FS :=
  if argv.length < 2 then (1, [usageLine], fs)
  else
    match runPaths fs (argv.drop 1) with
    | some w => (0, w.2, w.1)
    | none => (1, [], fs)

/- ---------------------------------------------------------------------
Concrete inputs used by the scenario theorems, counterexamples and
witnesses. -/

/-- Scenario A input: one @MainActor suspending setUp override whose
body after the super call is a single assignment. -/
def scenarioAIn : String :=
  "class FooTests: XCTestCase \x7b\n    @MainActor\n    override func setUp() async throws \x7b\n        try await super.setUp()\n        sut = makeSUT()\n    \x7d\n\x7d\n"

/-- Scenario A expected output. -/
def scenarioAOut : String :=
  "class FooTests: XCTestCase \x7b\n    override func setUp() \x7b\n        super.setUp()\n        MainActor.assumeIsolated \x7b\nsut = makeSUT()\n        \x7d\n    \x7d\n\x7d\n"

/-- Scenario B input: one @MainActor suspending tearDown override whose
body before the trailing super call is a single cleanup statement. -/
def scenarioBIn : String :=
  "class FooTests: XCTestCase \x7b\n    @MainActor\n    override func tearDown() async throws \x7b\n        sut = nil\n        try await super.tearDown()\n    \x7d\n\x7d\n"

/-- Scenario B expected output. -/
def scenarioBOut : String :=
  "class FooTests: XCTestCase \x7b\n    override func tearDown() \x7b\n        MainActor.assumeIsolated \x7b\nsut = nil\n        \x7d\n        super.tearDown()\n    \x7d\n\x7d\n"

/-- Idempotence counterexample input: the captured body of the outer
setup block is itself the text of a setup-pattern head, so the rewritten
output matches the pattern again. -/
def idemIn : String :=
  "@MainActor override func setUp() async throws \x7b try await super.setUp() @MainActor override func setUp() async throws \x7b try await super.setUp() X\x7d"

/-- Pass-order counterexample input: the teardown match spans the setup
match, so the pass applied first consumes text the other needs. -/
def orderIn : String :=
  "@MainActor override func tearDown() async throws \x7b@MainActor override func setUp() async throws \x7b try await super.setUp() try await super.tearDown() \x7d"

/-- Concrete file system used by witnesses: one unchanged-by-transform
file. -/
def fsA : FS := fun q => if q = "a.swift" then some "let x = 1\n" else none

/-- Concrete input for the body-trimming witness. -/
def trimIn : String :=
  "@MainActor override func setUp() async throws \x7b try await super.setUp() x \x7d"

/-- Its captured group-1 body. -/
def trimBody : String := " x "

/-- A content on which both passes are identities (commutation witness). -/
def commuteIn : String := "let x = 1\n"

/-- Separators and bodies for the global-substitution witness. -/
def gSep0 : String := "class ATests: XCTestCase \x7b\n    "

def gSep1 : String := "\n\x7d\n\nclass BTests: XCTestCase \x7b\n    "

def gSep2 : String := "\n\x7d\n"

def gBody1 : String := "\n        sutA = makeA()\n    "

def gBody2 : String := "\n        sutB = makeB()\n    "

/-- A malformed, partial pattern occurrence (totality witness). -/
def totalIn : String := "malformed @MainActor setUp \x7b"

/- ---------------------------------------------------------------------
Length bounds: every successful anchored match consumes at least one
character, so the scanners' fuel of `s.length` is always sufficient. -/

theorem eatLit_length : ∀ (l s r : List Char), eatLit l s = some r → r.length ≤ s.length := by
  intro l
  induction l with
  | nil =>
    intro s r h
    simp only [eatLit, Option.some.injEq] at h
    subst h
    exact Nat.le_refl _
  | cons c cs ihl =>
    intro s r h
    cases s with
    | nil => simp [eatLit] at h
    | cons d ds =>
      simp only [eatLit] at h
      split at h
      · exact Nat.le_succ_of_le (ihl ds r h)
      · exact absurd h (by simp)

theorem eatLit_cons_length_lt (c : Char) (cs s r : List Char) (h : eatLit (c :: cs) s = some r) :
    r.length < s.length := by
  cases s with
  | nil => simp [eatLit] at h
  | cons d ds =>
    simp only [eatLit] at h
    split at h
    · exact Nat.lt_succ_of_le (eatLit_length cs ds r h)
    · exact absurd h (by simp)

theorem eatLit_ne_nil_length_lt (l s r : List Char) (hl : l ≠ []) (h : eatLit l s = some r) :
    r.length < s.length := by
  cases l with
  | nil => exact absurd rfl hl
  | cons c cs => exact eatLit_cons_length_lt c cs s r h

theorem dropSpaces_length : ∀ s : List Char, (dropSpaces s).length ≤ s.length := by
  intro s
  induction s with
  | nil => exact Nat.le_refl _
  | cons c rest ih =>
    simp only [dropSpaces]
    split
    · exact Nat.le_succ_of_le ih
    · exact Nat.le_refl _

theorem eatSpaces1_length (s r : List Char) (h : eatSpaces1 s = some r) : r.length < s.length := by
  cases s with
  | nil => simp [eatSpaces1] at h
  | cons c rest =>
    simp only [eatSpaces1] at h
    split at h
    · simp only [Option.some.injEq] at h
      subst h
      exact Nat.lt_succ_of_le (dropSpaces_length rest)
    · exact absurd h (by simp)

theorem splitAtBrace_rem_length : ∀ s b r : List Char, splitAtBrace s = some (b, r) → r.length < s.length := by
  intro s
  induction s with
  | nil => intro b r h; simp [splitAtBrace] at h
  | cons c rest ih =>
    intro b r h
    simp only [splitAtBrace] at h
    split at h
    · simp only [Option.some.injEq, Prod.mk.injEq] at h
      obtain ⟨-, h2⟩ := h
      subst h2
      exact Nat.lt_succ_self _
    · simp only [Option.map_eq_some', Prod.exists] at h
      obtain ⟨b', r', h1, h2⟩ := h
      simp only [Prod.mk.injEq] at h2
      have h4 := ih b' r' h1
      rw [h2.2] at h4
      exact Nat.lt_succ_of_lt h4

theorem tearTailHere_length (s r : List Char) (h : tearTailHere s = some r) : r.length < s.length := by
  simp only [tearTailHere, Option.bind_eq_some] at h
  obtain ⟨r1, h1, h2⟩ := h
  have hlt1 : r1.length < s.length :=
    eatLit_ne_nil_length_lt _ s r1 (by decide) h1
  split at h2
  · simp only [Option.some.injEq] at h2
    rename_i rest heq
    have hds : (dropSpaces r1).length ≤ r1.length := dropSpaces_length r1
    rw [heq] at hds
    have hr : r.length < r1.length := by
      rw [← h2]
      exact Nat.lt_of_lt_of_le (Nat.lt_succ_self _) hds
    exact Nat.lt_trans hr hlt1
  · exact absurd h2 (by simp)

theorem findTearTail_rem_length : ∀ s b r : List Char, findTearTail s = some (b, r) → r.length < s.length := by
  intro s
  induction s with
  | nil => intro b r h; simp [findTearTail] at h
  | cons c rest ih =>
    intro b r h
    simp only [findTearTail] at h
    split at h
    · rename_i r0 heq
      simp only [Option.some.injEq, Prod.mk.injEq] at h
      have h4 := tearTailHere_length _ r0 heq
      rw [h.2] at h4
      exact h4
    · simp only [Option.map_eq_some', Prod.exists] at h
      obtain ⟨b', r', h1, h2⟩ := h
      simp only [Prod.mk.injEq] at h2
      have h4 := ih b' r' h1
      rw [h2.2] at h4
      exact Nat.lt_succ_of_lt h4

theorem matchSetup_rem_length (s b rem : List Char) (h : matchSetup s = some (b, rem)) :
    rem.length < s.length := by
  simp only [matchSetup, Option.bind_eq_some] at h
  obtain ⟨s1, h1, s2, h2, s3, h3, s4, h4, h5⟩ := h
  have l1 : s1.length < s.length := eatLit_ne_nil_length_lt _ s s1 (by decide) h1
  have l2 : s2.length < s1.length := eatSpaces1_length s1 s2 h2
  have l3 : s3.length < s2.length := eatLit_ne_nil_length_lt _ s2 s3 (by decide) h3
  have l4 : s4.length < (dropSpaces s3).length := eatLit_ne_nil_length_lt _ _ s4 (by decide) h4
  have l4' : (dropSpaces s3).length ≤ s3.length := dropSpaces_length s3
  have l5 : rem.length < s4.length := splitAtBrace_rem_length s4 b rem h5
  omega

theorem matchTear_rem_length (s b rem : List Char) (h : matchTear s = some (b, rem)) :
    rem.length < s.length := by
  simp only [matchTear, Option.bind_eq_some] at h
  obtain ⟨s1, h1, s2, h2, s3, h3, h4⟩ := h
  have l1 : s1.length < s.length := eatLit_ne_nil_length_lt _ s s1 (by decide) h1
  have l2 : s2.length < s1.length := eatSpaces1_length s1 s2 h2
  have l3 : s3.length < s2.length := eatLit_ne_nil_length_lt _ s2 s3 (by decide) h3
  have l4 : rem.length < s3.length := findTearTail_rem_length s3 b rem h4
  omega

/- ---------------------------------------------------------------------
Fuel stability: any fuel at least the input length computes the same
result, so `subSetupGo`/`subTearGo` are the functions' values. -/

theorem subSetupF_stable : ∀ n m (s : List Char), s.length ≤ n → s.length ≤ m →
    subSetupF n s = subSetupF m s := by
  intro n
  induction n with
  | zero =>
    intro m s hn _
    have hs : s = [] := List.length_eq_zero.mp (Nat.le_zero.mp hn)
    subst hs
    cases m <;> rfl
  | succ k ih =>
    intro m s hn hm
    cases s with
    | nil => cases m <;> rfl
    | cons c rest =>
      cases m with
      | zero => exact absurd hm (by simp)
      | succ j =>
        simp only [subSetupF]
        cases h : matchSetup (c :: rest) with
        | some pr =>
          obtain ⟨body, rem⟩ := pr
          have hlt := matchSetup_rem_length _ _ _ h
          simp only [List.length_cons] at hlt hn hm
          exact congrArg (fix_setup body ++ ·) (ih j rem (by omega) (by omega))
        | none =>
          simp only [List.length_cons] at hn hm
          exact congrArg (c :: ·) (ih j rest (by omega) (by omega))

theorem subTearF_stable : ∀ n m (s : List Char), s.length ≤ n → s.length ≤ m →
    subTearF n s = subTearF m s := by
  intro n
  induction n with
  | zero =>
    intro m s hn _
    have hs : s = [] := List.length_eq_zero.mp (Nat.le_zero.mp hn)
    subst hs
    cases m <;> rfl
  | succ k ih =>
    intro m s hn hm
    cases s with
    | nil => cases m <;> rfl
    | cons c rest =>
      cases m with
      | zero => exact absurd hm (by simp)
      | succ j =>
        simp only [subTearF]
        cases h : matchTear (c :: rest) with
        | some pr =>
          obtain ⟨body, rem⟩ := pr
          have hlt := matchTear_rem_length _ _ _ h
          simp only [List.length_cons] at hlt hn hm
          exact congrArg (fix_teardown body ++ ·) (ih j rem (by omega) (by omega))
        | none =>
          simp only [List.length_cons] at hn hm
          exact congrArg (c :: ·) (ih j rest (by omega) (by omega))

/- ---------------------------------------------------------------------
Unfolding equations of the substitution passes. -/

theorem subSetupGo_cons_none (c : Char) (t : List Char) (h : matchSetup (c :: t) = none) :
    subSetupGo (c :: t) = c :: subSetupGo t := by
  show subSetupF (t.length + 1) (c :: t) = c :: subSetupGo t
  simp only [subSetupF, h]
  rfl

theorem subSetupGo_match (s b rem : List Char) (h : matchSetup s = some (b, rem)) :
    subSetupGo s = fix_setup b ++ subSetupGo rem := by
  cases s with
  | nil => exact absurd h (by simp [show matchSetup [] = none from rfl])
  | cons c t =>
    show subSetupF (t.length + 1) (c :: t) = _
    simp only [subSetupF, h]
    have hlt := matchSetup_rem_length _ _ _ h
    simp only [List.length_cons] at hlt
    exact congrArg (fix_setup b ++ ·) (subSetupF_stable t.length rem.length rem (by omega) (Nat.le_refl _))

theorem subTearGo_cons_none (c : Char) (t : List Char) (h : matchTear (c :: t) = none) :
    subTearGo (c :: t) = c :: subTearGo t := by
  show subTearF (t.length + 1) (c :: t) = c :: subTearGo t
  simp only [subTearF, h]
  rfl

theorem subTearGo_match (s b rem : List Char) (h : matchTear s = some (b, rem)) :
    subTearGo s = fix_teardown b ++ subTearGo rem := by
  cases s with
  | nil => exact absurd h (by simp [show matchTear [] = none from rfl])
  | cons c t =>
    show subTearF (t.length + 1) (c :: t) = _
    simp only [subTearF, h]
    have hlt := matchTear_rem_length _ _ _ h
    simp only [List.length_cons] at hlt
    exact congrArg (fix_teardown b ++ ·) (subTearF_stable t.length rem.length rem (by omega) (Nat.le_refl _))

/- ---------------------------------------------------------------------
Identity on non-matching content, and skipping over `@`-free regions. -/

theorem noSetup_id : ∀ s : List Char, hasSetupMatch s = false → subSetupGo s = s := by
  intro s
  induction s with
  | nil => intro _; rfl
  | cons c t ih =>
    intro h
    simp only [hasSetupMatch, Bool.or_eq_false_iff] at h
    obtain ⟨h1, h2⟩ := h
    cases hm : matchSetup (c :: t) with
    | some p => rw [hm] at h1; simp at h1
    | none => rw [subSetupGo_cons_none c t hm, ih h2]

theorem noTear_id : ∀ s : List Char, hasTearMatch s = false → subTearGo s = s := by
  intro s
  induction s with
  | nil => intro _; rfl
  | cons c t ih =>
    intro h
    simp only [hasTearMatch, Bool.or_eq_false_iff] at h
    obtain ⟨h1, h2⟩ := h
    cases hm : matchTear (c :: t) with
    | some p => rw [hm] at h1; simp at h1
    | none => rw [subTearGo_cons_none c t hm, ih h2]

theorem matchSetup_not_at (c : Char) (t : List Char) (h : c ≠ '@') : matchSetup (c :: t) = none := by
  have h1 : eatLit litMainActor.data (c :: t) = none := by
    have e : litMainActor.data = '@' :: "MainActor".data := rfl
    rw [e]
    simp only [eatLit]
    rw [if_neg (fun he => h he.symm)]
  simp [matchSetup, h1]

theorem matchTear_not_at (c : Char) (t : List Char) (h : c ≠ '@') : matchTear (c :: t) = none := by
  have h1 : eatLit litMainActor.data (c :: t) = none := by
    have e : litMainActor.data = '@' :: "MainActor".data := rfl
    rw [e]
    simp only [eatLit]
    rw [if_neg (fun he => h he.symm)]
  simp [matchTear, h1]

theorem subSetupGo_skip : ∀ p rest : List Char, (∀ c ∈ p, c ≠ '@') →
    subSetupGo (p ++ rest) = p ++ subSetupGo rest := by
  intro p
  induction p with
  | nil => intro rest _; rfl
  | cons c p' ih =>
    intro rest hp
    have hc : c ≠ '@' := hp c (List.mem_cons_self c p')
    have hstep : subSetupGo (c :: (p' ++ rest)) = c :: subSetupGo (p' ++ rest) :=
      subSetupGo_cons_none c (p' ++ rest) (matchSetup_not_at c _ hc)
    calc subSetupGo ((c :: p') ++ rest) = c :: subSetupGo (p' ++ rest) := hstep
    _ = c :: (p' ++ subSetupGo rest) := by
        rw [ih rest (fun d hd => hp d (List.mem_cons_of_mem c hd))]
    _ = (c :: p') ++ subSetupGo rest := rfl

theorem subTearGo_skip : ∀ p rest : List Char, (∀ c ∈ p, c ≠ '@') →
    subTearGo (p ++ rest) = p ++ subTearGo rest := by
  intro p
  induction p with
  | nil => intro rest _; rfl
  | cons c p' ih =>
    intro rest hp
    have hc : c ≠ '@' := hp c (List.mem_cons_self c p')
    have hstep : subTearGo (c :: (p' ++ rest)) = c :: subTearGo (p' ++ rest) :=
      subTearGo_cons_none c (p' ++ rest) (matchTear_not_at c _ hc)
    calc subTearGo ((c :: p') ++ rest) = c :: subTearGo (p' ++ rest) := hstep
    _ = c :: (p' ++ subTearGo rest) := by
        rw [ih rest (fun d hd => hp d (List.mem_cons_of_mem c hd))]
    _ = (c :: p') ++ subTearGo rest := rfl

theorem subSetupGo_noAt_id (s : List Char) (h : ∀ c ∈ s, c ≠ '@') : subSetupGo s = s := by
  have e := subSetupGo_skip s [] h
  rw [List.append_nil] at e
  rw [e, show subSetupGo [] = [] from rfl, List.append_nil]

theorem subTearGo_noAt_id (s : List Char) (h : ∀ c ∈ s, c ≠ '@') : subTearGo s = s := by
  have e := subTearGo_skip s [] h
  rw [List.append_nil] at e
  rw [e, show subTearGo [] = [] from rfl, List.append_nil]

/- ---------------------------------------------------------------------
Canonical blocks: matching and rewriting. -/

theorem matchSetup_head (x : List Char) : matchSetup (setupBlockHead.data ++ x) = splitAtBrace x := rfl

theorem splitAtBrace_no_brace : ∀ b rest : List Char, '\x7d' ∉ b →
    splitAtBrace (b ++ '\x7d' :: rest) = some (b, rest) := by
  intro b
  induction b with
  | nil => intro rest _; simp [splitAtBrace]
  | cons c b' ih =>
    intro rest hb
    have hc : c ≠ '\x7d' := fun he => hb (he ▸ List.mem_cons_self c b')
    simp only [List.cons_append, splitAtBrace, List.append_eq]
    rw [if_neg hc, ih rest (fun hm => hb (List.mem_cons_of_mem c hm))]
    rfl

theorem matchSetup_block (b rest : List Char) (hb : '\x7d' ∉ b) :
    matchSetup (setupBlock b ++ rest) = some (b, rest) := by
  have e : setupBlock b ++ rest = setupBlockHead.data ++ (b ++ '\x7d' :: rest) := by
    simp [setupBlock, List.append_assoc]
  rw [e, matchSetup_head, splitAtBrace_no_brace b rest hb]

theorem subSetupGo_block (b rest : List Char) (hb : '\x7d' ∉ b) :
    subSetupGo (setupBlock b ++ rest) = fix_setup b ++ subSetupGo rest :=
  subSetupGo_match _ _ _ (matchSetup_block b rest hb)

/- ---------------------------------------------------------------------
`strip` only trims whitespace at the two ends. -/

theorem mem_dropWhile_imp {p : Char → Bool} : ∀ {l : List Char} {c : Char},
    c ∈ l.dropWhile p → c ∈ l := by
  intro l
  induction l with
  | nil => intro c h; simp [List.dropWhile] at h
  | cons d t ih =>
    intro c h
    simp only [List.dropWhile] at h
    split at h
    · exact List.mem_cons_of_mem d (ih h)
    · exact h

theorem mem_strip_imp {b : List Char} {c : Char} (h : c ∈ strip b) : c ∈ b := by
  unfold strip at h
  rw [List.mem_reverse] at h
  have h2 : c ∈ (b.dropWhile isPySpace).reverse := mem_dropWhile_imp h
  rw [List.mem_reverse] at h2
  exact mem_dropWhile_imp h2

theorem mem_takeWhile_space {p : Char → Bool} : ∀ {l : List Char} {c : Char},
    c ∈ l.takeWhile p → p c = true := by
  intro l
  induction l with
  | nil => intro c h; simp [List.takeWhile] at h
  | cons d t ih =>
    intro c h
    simp only [List.takeWhile] at h
    split at h
    · rename_i hd
      rcases List.mem_cons.mp h with h1 | h2
      · rw [h1]; exact hd
      · exact ih h2
    · simp at h

theorem strip_decomp (b : List Char) :
    ∃ u v : List Char, b = u ++ (strip b ++ v) ∧
      (∀ c ∈ u, isPySpace c = true) ∧ (∀ c ∈ v, isPySpace c = true) := by
  refine ⟨b.takeWhile isPySpace, ((b.dropWhile isPySpace).reverse.takeWhile isPySpace).reverse,
    ?_, ?_, ?_⟩
  · have e1 : strip b ++ ((b.dropWhile isPySpace).reverse.takeWhile isPySpace).reverse
        = b.dropWhile isPySpace := by
      unfold strip
      rw [← List.reverse_append, List.takeWhile_append_dropWhile, List.reverse_reverse]
    rw [e1, List.takeWhile_append_dropWhile]
  · intro c hc
    exact mem_takeWhile_space hc
  · intro c hc
    rw [List.mem_reverse] at hc
    exact mem_takeWhile_space hc

/- ---------------------------------------------------------------------
Claim theorems. -/

/-- Claim C1, counterexample: `fix_setup_teardown` is not idempotent.
When the captured body itself contains the text of a setup-pattern
prefix, the rewritten output matches the pattern again (the template's
closing braces supply the final `\x7d`), so a second application rewrites
further. -/
theorem fix_idempotent_counterexample :
    fix_setup_teardown (fix_setup_teardown idemIn) ≠ fix_setup_teardown idemIn := by
  decide

/-- Claim C1 (amended): applying the transform twice yields the same
result as applying it once for every content whose once-transformed
output contains no occurrence of either structural pattern; the
unconditional claim fails because a rewritten block can match the
original pattern again when the captured body reintroduces pattern
text. -/
theorem fix_idempotent_on_stable_output (content : String)
    (h1 : hasSetupMatch (fix_setup_teardown content).data = false)
    (h2 : hasTearMatch (fix_setup_teardown content).data = false) :
    fix_setup_teardown (fix_setup_teardown content) = fix_setup_teardown content := by
  show String.mk (subTearGo (subSetupGo (fix_setup_teardown content).data)) =
    fix_setup_teardown content
  rw [noSetup_id _ h1, noTear_id _ h2]

theorem fix_idempotent_on_stable_output_witness :
    fix_setup_teardown (fix_setup_teardown scenarioAIn) = fix_setup_teardown scenarioAIn :=
  fix_idempotent_on_stable_output scenarioAIn (by decide) (by decide)

/-- Claim C2: an input with one @MainActor suspending setUp override
whose body after `try await super.setUp()` is a single assignment is
rewritten to a non-suspending `override func setUp()` that calls
`super.setUp()` unconditionally and wraps the end-trimmed body in
`MainActor.assumeIsolated`. -/
theorem setup_scenario_rewrite : fix_setup_teardown scenarioAIn = scenarioAOut := by
  decide

/-- Claim C3: an input with one @MainActor suspending tearDown override
whose body before the trailing `try await super.tearDown()` is a single
cleanup statement is rewritten to a non-suspending
`override func tearDown()` that wraps the end-trimmed body in
`MainActor.assumeIsolated` and then calls `super.tearDown()`
unconditionally. -/
theorem teardown_scenario_rewrite : fix_setup_teardown scenarioBIn = scenarioBOut := by
  decide

/-- Claim C4: a content containing no occurrence of the setup pattern
and no occurrence of the teardown pattern is returned unchanged. -/
theorem fix_identity_on_nonmatching (content : String)
    (h1 : hasSetupMatch content.data = false)
    (h2 : hasTearMatch content.data = false) :
    fix_setup_teardown content = content := by
  show String.mk (subTearGo (subSetupGo content.data)) = content
  rw [noSetup_id _ h1, noTear_id _ h2]

theorem fix_identity_on_nonmatching_witness :
    fix_setup_teardown commuteIn = commuteIn :=
  fix_identity_on_nonmatching commuteIn (by decide) (by decide)

/-- Claim C5, counterexample: the two substitution passes are not
independent.  On this content the teardown match spans the setup match,
so running the teardown pass first yields a different result from the
program's order (setup pass first, then teardown pass). -/
theorem passes_order_counterexample :
    String.mk (subSetupGo (subTearGo orderIn.data)) ≠ fix_setup_teardown orderIn := by
  decide

/-- Claim C5 (amended): the passes are not independent in general; they
commute on any content for which one of the passes is the identity both
before and after the other pass.  The program's fixed order is the
setup pass first, then the teardown pass. -/
theorem passes_commute_conditional (s : List Char)
    (h : (subTearGo s = s ∧ subTearGo (subSetupGo s) = subSetupGo s) ∨
         (subSetupGo s = s ∧ subSetupGo (subTearGo s) = subTearGo s)) :
    subSetupGo (subTearGo s) = subTearGo (subSetupGo s) := by
  rcases h with ⟨h1, h2⟩ | ⟨h1, h2⟩
  · rw [h1, h2]
  · rw [h1, h2]

theorem passes_commute_conditional_witness :
    subSetupGo (subTearGo commuteIn.data) = subTearGo (subSetupGo commuteIn.data) :=
  passes_commute_conditional commuteIn.data (Or.inl ⟨by decide, by decide⟩)

/-- Claim C6: substitution is global.  For a content made of two
well-delimited setup-pattern occurrences (bodies without a closing
brace) separated by `@`-free text, both occurrences are rewritten, in
order, and all text outside the matched blocks is reproduced verbatim. -/
theorem setup_substitution_global (p0 p1 p2 b1 b2 : List Char)
    (hp0 : ∀ c ∈ p0, c ≠ '@') (hp1 : ∀ c ∈ p1, c ≠ '@') (hp2 : ∀ c ∈ p2, c ≠ '@')
    (hb1a : ∀ c ∈ b1, c ≠ '@') (hb2a : ∀ c ∈ b2, c ≠ '@')
    (hb1 : '\x7d' ∉ b1) (hb2 : '\x7d' ∉ b2) :
    fix_setup_teardown
        (String.mk (p0 ++ (setupBlock b1 ++ (p1 ++ (setupBlock b2 ++ p2))))) =
      String.mk (p0 ++ (fix_setup b1 ++ (p1 ++ (fix_setup b2 ++ p2)))) := by
  have hsetup : subSetupGo (p0 ++ (setupBlock b1 ++ (p1 ++ (setupBlock b2 ++ p2)))) =
      p0 ++ (fix_setup b1 ++ (p1 ++ (fix_setup b2 ++ p2))) := by
    rw [subSetupGo_skip p0 _ hp0, subSetupGo_block b1 _ hb1,
      subSetupGo_skip p1 _ hp1, subSetupGo_block b2 _ hb2, subSetupGo_noAt_id p2 hp2]
  have hfix : ∀ (b : List Char) (c : Char), (∀ d ∈ b, d ≠ '@') → c ∈ fix_setup b → c ≠ '@' := by
    intro b c hbat hcb
    simp only [fix_setup, List.mem_append] at hcb
    rcases hcb with (hch | hcs) | hct
    · exact fun he => absurd (he ▸ hch) (by decide)
    · exact hbat c (mem_strip_imp hcs)
    · exact fun he => absurd (he ▸ hct) (by decide)
  have hat : ∀ c ∈ p0 ++ (fix_setup b1 ++ (p1 ++ (fix_setup b2 ++ p2))), c ≠ '@' := by
    intro c hc
    simp only [List.mem_append] at hc
    rcases hc with h0 | hf1 | h1 | hf2 | h2
    · exact hp0 c h0
    · exact hfix b1 c hb1a hf1
    · exact hp1 c h1
    · exact hfix b2 c hb2a hf2
    · exact hp2 c h2
  show String.mk
      (subTearGo (subSetupGo (p0 ++ (setupBlock b1 ++ (p1 ++ (setupBlock b2 ++ p2)))))) = _
  rw [hsetup, subTearGo_noAt_id _ hat]

theorem setup_substitution_global_witness :
    fix_setup_teardown
        (String.mk (gSep0.data ++ (setupBlock gBody1.data ++
          (gSep1.data ++ (setupBlock gBody2.data ++ gSep2.data))))) =
      String.mk (gSep0.data ++ (fix_setup gBody1.data ++
        (gSep1.data ++ (fix_setup gBody2.data ++ gSep2.data)))) :=
  setup_substitution_global gSep0.data gSep1.data gSep2.data gBody1.data gBody2.data
    (by decide) (by decide) (by decide) (by decide) (by decide) (by decide) (by decide)

/-- Claim C7: `process_file` on a readable file writes nothing and
prints "No changes: <path>" when the transform leaves the content
unchanged, and writes exactly the transformed text and prints
"Fixed: <path>" when it differs. -/
theorem process_file_spec (fs : FS) (path content : String) (h : fs path = some content) :
    (fix_setup_teardown content = content →
      process_file fs path = some (fs, "No changes: " ++ path)) ∧
    (fix_setup_teardown content ≠ content →
      process_file fs path =
        some (fsWrite fs path (fix_setup_teardown content), "Fixed: " ++ path)) := by
  constructor
  · intro he
    simp only [process_file, h]
    rw [if_neg (fun hne => hne he)]
  · intro hne
    simp only [process_file, h]
    rw [if_pos hne]

theorem process_file_spec_witness :
    process_file fsA "a.swift" = some (fsA, "No changes: " ++ "a.swift") :=
  (process_file_spec fsA "a.swift" "let x = 1\n" (by decide)).1 (by decide)

/-- Claim C8: with fewer than one file argument the entry point prints
the usage line, exits with status 1 and touches no file; with one or
more paths it processes them sequentially in the order given via
`runPaths`, whose step runs `process_file` on the head path first. -/
theorem main_cli_spec (fs : FS) :
    (∀ argv : List String, argv.length < 2 → mainModel argv fs = (1, [usageLine], fs)) ∧
    (∀ prog p : String, ∀ ps : List String,
      mainModel (prog :: p :: ps) fs =
        match runPaths fs (p :: ps) with
        | some w => (0, w.2, w.1)
        | none => (1, [], fs)) ∧
    (∀ (fs1 : FS) (p : String) (ps : List String),
      runPaths fs1 (p :: ps) =
        (process_file fs1 p).bind fun r =>
          (runPaths r.1 ps).map fun w => (w.1, r.2 :: w.2)) := by
  refine ⟨?_, ?_, ?_⟩
  · intro argv h
    unfold mainModel
    rw [if_pos h]
  · intro prog p ps
    have hlen : ¬ ((prog :: p :: ps).length < 2) := by
      simp only [List.length_cons]
      omega
    unfold mainModel
    rw [if_neg hlen]
    rfl
  · intro fs1 p ps
    rfl

theorem main_cli_spec_witness :
    mainModel ["fix_setup_assume_isolated.py"] fsA = (1, [usageLine], fsA) :=
  (main_cli_spec fsA).1 ["fix_setup_assume_isolated.py"] (by decide)

/-- Claim C9: for every matched block the captured body is
whitespace-trimmed at its two ends only before insertion into the
replacement template: the output splices `strip b` between the fixed
template parts, and `b` itself is `u ++ strip b ++ v` with `u`, `v`
whitespace, so every internal character of the body appears verbatim. -/
theorem captured_body_end_trimmed (s b rem : List Char) :
    (matchSetup s = some (b, rem) →
      subSetupGo s =
        setupReplHead.data ++ (strip b ++ (setupReplTail.data ++ subSetupGo rem))) ∧
    (matchTear s = some (b, rem) →
      subTearGo s =
        tearReplHead.data ++ (strip b ++ (tearReplTail.data ++ subTearGo rem))) ∧
    (∃ u v : List Char, b = u ++ (strip b ++ v) ∧
      (∀ c ∈ u, isPySpace c = true) ∧ (∀ c ∈ v, isPySpace c = true)) := by
  refine ⟨?_, ?_, strip_decomp b⟩
  · intro h
    rw [subSetupGo_match s b rem h]
    simp [fix_setup, List.append_assoc]
  · intro h
    rw [subTearGo_match s b rem h]
    simp [fix_teardown, List.append_assoc]

theorem captured_body_end_trimmed_witness :
    subSetupGo trimIn.data =
      setupReplHead.data ++ (strip trimBody.data ++ (setupReplTail.data ++ subSetupGo [])) :=
  (captured_body_end_trimmed trimIn.data trimBody.data []).1 (by decide)

/-- Claim C10: `fix_setup_teardown` is total.  The scanners are
primitive recursive on a fuel argument; any fuel of at least the input
length (for the setup pass) and of at least the intermediate length
(for the teardown pass) yields the function's value, so every input
string, including empty and malformed ones, maps to a result string and
no failure is possible. -/
theorem fix_setup_teardown_total (content : String) (n m : Nat)
    (hn : content.data.length ≤ n) (hm : (subSetupF n content.data).length ≤ m) :
    fix_setup_teardown content = String.mk (subTearF m (subSetupF n content.data)) := by
  have e1 : subSetupF n content.data = subSetupGo content.data :=
    subSetupF_stable n content.data.length content.data hn (Nat.le_refl _)
  rw [e1] at hm ⊢
  have e2 : subTearF m (subSetupGo content.data) = subTearGo (subSetupGo content.data) :=
    subTearF_stable m (subSetupGo content.data).length _ hm (Nat.le_refl _)
  rw [e2]
  rfl

theorem fix_setup_teardown_total_witness :
    fix_setup_teardown totalIn =
      String.mk (subTearF (subSetupF 64 totalIn.data).length (subSetupF 64 totalIn.data)) :=
  fix_setup_teardown_total totalIn 64 (subSetupF 64 totalIn.data).length
    (by decide) (Nat.le_refl _)

end VibeMeter
